import Mathlib

/-
Verification of the diff-and-reconcile engine of `prod_db_changer`
(`src/main.py`, class `DatabaseSynchronizer`) against its natural-language
specification.  Python dictionaries holding one database row are embedded as
association lists from field names to an explicit value type; the methods of
`DatabaseSynchronizer` that make decisions (`calculate_inserts`,
`calculate_updates`, `_map_type_to_postgres`, `_sync_table_structure`,
`insert_records`, `update_records`, and the DDL emission of `sync_schema`)
become pure Lean functions over that embedding.  SQL side effects are
represented as traces of emitted statements plus a snapshot-level application
semantics.
-/

namespace ProdDbChanger

/-- A Python value stored in a row: `None`, an int, a string or a bool.
`vnull` plays the role of Python's `None`, which is what `dict.get` returns
for a missing key. -/
inductive Value where
  | vnull : Value
  | vint : Int → Value
  | vstr : String → Value
  | vbool : Bool → Value
deriving DecidableEq, Repr

abbrev Field := String

/-- A row (`Dict` in `main.py`): an association list from field name to value.
Python dictionaries have unique keys; theorems that need this take a
`Nodup` hypothesis on the key list. -/
abbrev Record := List (Field × Value)

/-- First-occurrence lookup in an association list keyed by strings
(embeds Python's `d[k]` / `k in d` on dictionaries, whose keys are unique). -/
def alookup {β : Type} : List (String × β) → String → Option β
  | [], _ => none
  | p :: rest, k => if p.1 = k then some p.2 else alookup rest k

/-- Lookup of a field in a record (`record[k]` when present). -/
def rlookup (r : Record) (k : Field) : Option Value :=
  alookup r k

/-- Python's `k in record`. -/
def hasKey (r : Record) (k : Field) : Bool :=
  (rlookup r k).isSome

/-- Python's `record.get(k)`: the stored value, or `None` when absent. -/
def rget (r : Record) (k : Field) : Value :=
  (rlookup r k).getD Value.vnull

/-- `main.py` lines 250: `prod_ids = {rec['id'] for rec in prod_records if 'id' in rec}`,
kept as a list (membership is all that is ever asked of it). -/
def prodIds (prod_records : List Record) : List Value :=
  (prod_records.filter (fun rec => hasKey rec "id")).map (fun rec => rget rec "id")

/-- `DatabaseSynchronizer.calculate_inserts` (`main.py` lines 246-256):
keep every test record whose `r.get('id')` is not among the prod ids. -/
def calculate_inserts (test_records prod_records : List Record) : List Record :=
  test_records.filter (fun r => decide (rget r "id" ∉ prodIds prod_records))

/-- `main.py` line 265: `prod_dict = {rec['id']: rec for rec in prod_records if 'id' in rec}`
as a function from an id value to the record indexed under it.  A Python dict
comprehension lets a later record override an earlier one with the same id,
so the last matching record wins. -/
def prodIndex (prod_records : List Record) (k : Value) : Option Record :=
  prod_records.reverse.find? (fun rec => hasKey rec "id" && decide (rget rec "id" = k))

/-- Inner loop of `calculate_updates` (`main.py` lines 271-277): some field of
`test_rec` other than `'id'` also exists in `prod_rec` and holds a different
value there. -/
def recordDiffers (test_rec prod_rec : Record) : Bool :=
  test_rec.any (fun p =>
    decide (p.1 ≠ "id") && hasKey prod_rec p.1 && decide (rget prod_rec p.1 ≠ p.2))

/-- `DatabaseSynchronizer.calculate_updates` (`main.py` lines 258-280). -/
def calculate_updates (test_records prod_records : List Record) : List Record :=
  test_records.filter (fun test_rec =>
    match prodIndex prod_records (rget test_rec "id") with
    | some prod_rec => recordDiffers test_rec prod_rec
    | none => false)

/-- `DatabaseSynchronizer._map_type_to_postgres` (`main.py` lines 218-229). -/
def map_type_to_postgres (data_type : String) : String :=
  if data_type = "character varying" then "VARCHAR(255)"
  else if data_type = "integer" then "INTEGER"
  else if data_type = "boolean" then "BOOLEAN"
  else data_type.toUpper

/-- Scenario B source rows. -/
def scenarioBTest : List Record :=
  [[("id", Value.vint 1), ("name", Value.vstr "TestName1")],
   [("id", Value.vint 2), ("name", Value.vstr "TestName2")]]

/-- Scenario B target rows. -/
def scenarioBProd : List Record :=
  [[("id", Value.vint 1), ("name", Value.vstr "OldName")]]

/-- Claim C1: on Scenario B (source `[{id:1,name:'TestName1'},{id:2,name:'TestName2'}]`,
target `[{id:1,name:'OldName'}]`) the record differ produces exactly
inserts `= [{id:2,name:'TestName2'}]` and updates `= [{id:1,name:'TestName1'}]`. -/
theorem scenarioB_plan :
    calculate_inserts scenarioBTest scenarioBProd =
      [[("id", Value.vint 2), ("name", Value.vstr "TestName2")]] ∧
    calculate_updates scenarioBTest scenarioBProd =
      [[("id", Value.vint 1), ("name", Value.vstr "TestName1")]] := by
  constructor <;> rfl

/-- Claim C8: the type mapper is a pure total function sending
`'character varying'` to `'VARCHAR(255)'`, `'integer'` to `'INTEGER'`,
`'boolean'` to `'BOOLEAN'`, and every other tag to itself uppercased. -/
theorem map_type_to_postgres_spec :
    map_type_to_postgres "character varying" = "VARCHAR(255)" ∧
    map_type_to_postgres "integer" = "INTEGER" ∧
    map_type_to_postgres "boolean" = "BOOLEAN" ∧
    ∀ s : String, s ≠ "character varying" → s ≠ "integer" → s ≠ "boolean" →
      map_type_to_postgres s = s.toUpper := by
  refine ⟨rfl, rfl, rfl, ?_⟩
  intro s h1 h2 h3
  unfold map_type_to_postgres
  rw [if_neg h1, if_neg h2, if_neg h3]

/-- Witness for C8: the catch-all branch evaluated at the tag `'text'`. -/
theorem map_type_to_postgres_spec_witness :
    map_type_to_postgres "text" = "text".toUpper :=
  (map_type_to_postgres_spec.2.2.2) "text" (by decide) (by decide) (by decide)

theorem alookup_mem {β : Type} {l : List (String × β)} {k : String} {v : β}
    (h : alookup l k = some v) : (k, v) ∈ l := by
  induction l with
  | nil => simp [alookup] at h
  | cons p rest ih =>
    obtain ⟨k', v'⟩ := p
    rw [alookup] at h
    by_cases hk : k' = k
    · rw [if_pos hk] at h
      cases h
      subst hk
      exact List.mem_cons_self _ _
    · rw [if_neg hk] at h
      exact List.mem_cons_of_mem _ (ih h)

theorem alookup_of_mem_nodup {β : Type} {l : List (String × β)}
    (hnd : (l.map Prod.fst).Nodup) {k : String} {v : β}
    (h : (k, v) ∈ l) : alookup l k = some v := by
  induction l with
  | nil => simp at h
  | cons p rest ih =>
    obtain ⟨k', v'⟩ := p
    rw [List.map_cons, List.nodup_cons] at hnd
    rcases List.mem_cons.mp h with heq | hmem
    · cases heq
      simp [alookup]
    · rw [alookup]
      by_cases hk : k' = k
      · exfalso
        exact hnd.1 (hk ▸ List.mem_map.mpr ⟨(k, v), hmem, rfl⟩)
      · rw [if_neg hk]
        exact ih hnd.2 hmem

theorem hasKey_and_rget_eq {t : Record} {f : Field} {k : Value} :
    (hasKey t f = true ∧ rget t f = k) ↔ rlookup t f = some k := by
  unfold hasKey rget
  cases h : rlookup t f <;> simp

theorem hasKey_and_rget_ne {t : Record} {f : Field} {v : Value} :
    (hasKey t f = true ∧ rget t f ≠ v) ↔ ∃ w, rlookup t f = some w ∧ w ≠ v := by
  unfold hasKey rget
  cases h : rlookup t f <;> simp

theorem rget_of_not_hasKey {r : Record} {f : Field} (h : hasKey r f = false) :
    rget r f = Value.vnull := by
  unfold hasKey at h
  unfold rget
  cases hl : rlookup r f
  · rfl
  · rw [hl] at h
    simp at h

theorem prodIndex_eq_some {prod_records : List Record} {k : Value} {t : Record}
    (h : prodIndex prod_records k = some t) :
    t ∈ prod_records ∧ rlookup t "id" = some k := by
  unfold prodIndex at h
  have hmem := List.mem_reverse.mp (List.mem_of_find?_eq_some h)
  have hp := List.find?_some h
  rw [Bool.and_eq_true, decide_eq_true_iff] at hp
  exact ⟨hmem, hasKey_and_rget_eq.mp hp⟩

theorem prodIndex_isSome_iff {prod_records : List Record} {k : Value} :
    (prodIndex prod_records k).isSome = true ↔ k ∈ prodIds prod_records := by
  unfold prodIndex prodIds
  rw [List.find?_isSome]
  constructor
  · rintro ⟨t, htmem, htp⟩
    rw [Bool.and_eq_true, decide_eq_true_iff] at htp
    exact List.mem_map.mpr
      ⟨t, List.mem_filter.mpr ⟨List.mem_reverse.mp htmem, htp.1⟩, htp.2⟩
  · intro hk
    obtain ⟨t, htmem, hteq⟩ := List.mem_map.mp hk
    have := List.mem_filter.mp htmem
    exact ⟨t, List.mem_reverse.mpr this.1,
      by rw [Bool.and_eq_true, decide_eq_true_iff]; exact ⟨this.2, hteq⟩⟩

theorem prodIndex_eq_none_iff {prod_records : List Record} {k : Value} :
    prodIndex prod_records k = none ↔ k ∉ prodIds prod_records := by
  rw [← prodIndex_isSome_iff]
  cases prodIndex prod_records k <;> simp

/-- Counterexample to claim C2 as stated: the empty record carries no `'id'`
field, yet `calculate_inserts` places it in the insert-set (its
`r.get('id')` is `None`, which is absent from an empty target id set). -/
theorem no_id_record_inserted_cex :
    hasKey ([] : Record) "id" = false ∧
    ([] : Record) ∈ calculate_inserts [([] : Record)] [] := by
  constructor
  · rfl
  · simp [calculate_inserts, prodIds]

/-- Claim C2 as amended: provided no target record carries identity value
`None`, a source record lacking the `'id'` field is excluded from the
update-set but is included in the insert-set, because `calculate_inserts`
reads its identity as `None` via `r.get('id')` and `None` is then absent
from the target id set. -/
theorem no_id_record_fate (test_records prod_records : List Record) (r : Record)
    (hnone : Value.vnull ∉ prodIds prod_records)
    (hr : r ∈ test_records) (hid : hasKey r "id" = false) :
    r ∉ calculate_updates test_records prod_records ∧
    r ∈ calculate_inserts test_records prod_records := by
  have hget : rget r "id" = Value.vnull := rget_of_not_hasKey hid
  constructor
  · intro hmem
    rw [calculate_updates, List.mem_filter] at hmem
    have hpred := hmem.2
    rw [hget, prodIndex_eq_none_iff.mpr hnone] at hpred
    simp at hpred
  · rw [calculate_inserts, List.mem_filter]
    exact ⟨hr, by rw [hget]; exact decide_eq_true hnone⟩

/-- Witness for the amended C2: a concrete id-less record against an empty
target is skipped by `calculate_updates` and picked up by `calculate_inserts`. -/
theorem no_id_record_fate_witness :
    [("name", Value.vstr "X")] ∉ calculate_updates [[("name", Value.vstr "X")]] [] ∧
    [("name", Value.vstr "X")] ∈ calculate_inserts [[("name", Value.vstr "X")]] [] :=
  no_id_record_fate [[("name", Value.vstr "X")]] [] [("name", Value.vstr "X")]
    (by simp [prodIds]) (by simp) (by rfl)

/-- Claim C3: a source record enters the update-set exactly when its identity
value (as read by `r.get('id')`) hits the target index and some non-identity
field present in both the source record and the indexed target record holds
strictly different values there; the record itself — not a projection — is
what the update-set holds, so a source field absent from the target record
never triggers an update by itself. -/
theorem calculate_updates_mem_iff (test_records prod_records : List Record)
    (r : Record) (hkeys : (r.map Prod.fst).Nodup) :
    r ∈ calculate_updates test_records prod_records ↔
      r ∈ test_records ∧
      ∃ t, prodIndex prod_records (rget r "id") = some t ∧
        ∃ f v w, f ≠ "id" ∧ rlookup r f = some v ∧ rlookup t f = some w ∧ w ≠ v := by
  rw [calculate_updates, List.mem_filter]
  refine and_congr_right fun _ => ?_
  cases hidx : prodIndex prod_records (rget r "id") with
  | none =>
    simp only [hidx]
    constructor
    · intro h
      simp at h
    · rintro ⟨t, ht, _⟩
      cases ht
  | some t =>
    simp only [hidx]
    constructor
    · intro h
      have hdiff := h
      rw [recordDiffers, List.any_eq_true] at hdiff
      obtain ⟨p, hpmem, hp⟩ := hdiff
      rw [Bool.and_eq_true, Bool.and_eq_true, decide_eq_true_iff, decide_eq_true_iff] at hp
      obtain ⟨⟨hfne, hhas⟩, hne⟩ := hp
      obtain ⟨w, hw, hwne⟩ := hasKey_and_rget_ne.mp ⟨hhas, hne⟩
      exact ⟨t, rfl, p.1, p.2, w, hfne,
        alookup_of_mem_nodup hkeys (by rwa [← Prod.mk.eta (p := p)] at hpmem), hw, hwne⟩
    · rintro ⟨t', ht', f, v, w, hfne, hrv, htw, hwne⟩
      cases ht'
      rw [recordDiffers, List.any_eq_true]
      refine ⟨(f, v), alookup_mem hrv, ?_⟩
      rw [Bool.and_eq_true, Bool.and_eq_true, decide_eq_true_iff, decide_eq_true_iff]
      have := hasKey_and_rget_ne.mpr ⟨w, htw, hwne⟩
      exact ⟨⟨hfne, this.1⟩, this.2⟩

/-- Witness for C3 on Scenario B data: the first source record differs from
its target match on `name`, so the iff puts it in the update-set. -/
theorem calculate_updates_mem_iff_witness :
    [("id", Value.vint 1), ("name", Value.vstr "TestName1")] ∈
      calculate_updates scenarioBTest scenarioBProd :=
  (calculate_updates_mem_iff scenarioBTest scenarioBProd
      [("id", Value.vint 1), ("name", Value.vstr "TestName1")] (by decide)).mpr
    ⟨by simp [scenarioBTest], [("id", Value.vint 1), ("name", Value.vstr "OldName")],
      by rfl, "name", Value.vstr "TestName1", Value.vstr "OldName",
      by decide, by rfl, by rfl, by decide⟩

/-- One parameterized SQL statement: the query text and the positionally
bound values, as handed to `cursor.execute(query, values)`. -/
structure SqlStmt where
  query : String
  params : List Value
deriving DecidableEq, Repr

/-- What one call of an executor method does to the connection: the emitted
statements in order and how many commits follow. -/
structure ExecTrace where
  stmts : List SqlStmt
  commits : Nat
deriving DecidableEq, Repr

/-- The INSERT built for one record (`main.py` lines 290-296): columns are the
record's keys in iteration order, values bound positionally. -/
def insertStmt (table_name : String) (record : Record) : SqlStmt :=
  { query := "INSERT INTO " ++ table_name ++ " (" ++
      String.intercalate ", " (record.map Prod.fst) ++ ") VALUES (" ++
      String.intercalate ", " (record.map (fun _ => "%s")) ++ ")"
    params := record.map Prod.snd }

/-- `DatabaseSynchronizer.insert_records` (`main.py` lines 282-297): early
return on an empty list, otherwise one INSERT per record and one commit
after the whole batch. -/
def insert_records (table_name : String) (records : List Record) : ExecTrace :=
  if records.isEmpty then ⟨[], 0⟩
  else ⟨records.map (insertStmt table_name), 1⟩

/-- The non-identity fields of a record, in record order (`main.py`
lines 314-318 collect exactly these into the SET clause). -/
def nonIdFields (record : Record) : Record :=
  record.filter (fun p => decide (p.1 ≠ "id"))

/-- The UPDATE built for one record (`main.py` lines 312-323): SET over the
non-identity fields in record order, the identity value bound last. -/
def mkUpdateStmt (table_name : String) (record : Record) : SqlStmt :=
  { query := "UPDATE " ++ table_name ++ " SET " ++
      String.intercalate ", " ((nonIdFields record).map (fun p => p.1 ++ " = %s")) ++
      " WHERE id = %s"
    params := (nonIdFields record).map Prod.snd ++ [rget record "id"] }

/-- The per-record body of the `update_records` loop (`main.py` lines
307-324): skip a record lacking `'id'` and skip a record whose SET clause
would be empty; otherwise emit its UPDATE. -/
def updateStmtOpt (table_name : String) (record : Record) : Option SqlStmt :=
  if hasKey record "id" && !(nonIdFields record).isEmpty then
    some (mkUpdateStmt table_name record)
  else none

/-- `DatabaseSynchronizer.update_records` (`main.py` lines 299-325): early
return on an empty list, otherwise the per-record statements in order and
one commit after the whole batch. -/
def update_records (table_name : String) (records : List Record) : ExecTrace :=
  if records.isEmpty then ⟨[], 0⟩
  else ⟨records.filterMap (updateStmtOpt table_name), 1⟩

theorem filterMap_updateStmtOpt (table_name : String) (records : List Record) :
    records.filterMap (updateStmtOpt table_name) =
      (records.filter (fun r => hasKey r "id" && !(nonIdFields r).isEmpty)).map
        (mkUpdateStmt table_name) := by
  induction records with
  | nil => rfl
  | cons r rest ih =>
    rw [List.filterMap_cons, List.filter_cons]
    cases h : hasKey r "id" && !(nonIdFields r).isEmpty
    · rw [updateStmtOpt, h, if_neg (by simp)]
      simpa using ih
    · rw [updateStmtOpt, h, if_pos rfl]
      simpa using ih

/-- Counterexample to claim C9 as stated: a non-empty update list whose one
record carries the identity field but nothing else gets zero UPDATE
statements, not one (the empty-SET guard skips it); the commit still runs. -/
theorem update_id_only_no_stmt_cex :
    hasKey [("id", Value.vint 5)] "id" = true ∧
    ([[("id", Value.vint 5)]] : List Record) ≠ [] ∧
    (update_records "my_table" [[("id", Value.vint 5)]]).stmts = [] ∧
    (update_records "my_table" [[("id", Value.vint 5)]]).commits = 1 := by
  refine ⟨rfl, by simp, rfl, rfl⟩

/-- Claim C9 as amended: for a non-empty update list, `update_records` issues
one UPDATE per record that has the identity field and at least one
non-identity field — SET covering the non-identity fields in record order,
the identity value bound last — skips every other record, and commits once
after the batch. -/
theorem update_records_trace (table_name : String) (records : List Record)
    (h : records ≠ []) :
    (update_records table_name records).commits = 1 ∧
    (update_records table_name records).stmts =
      (records.filter (fun r => hasKey r "id" && !(nonIdFields r).isEmpty)).map
        (fun r =>
          { query := "UPDATE " ++ table_name ++ " SET " ++
              String.intercalate ", "
                ((nonIdFields r).map (fun p => p.1 ++ " = %s")) ++
              " WHERE id = %s"
            params := (nonIdFields r).map Prod.snd ++ [rget r "id"] }) := by
  have hne : records.isEmpty = false := by
    cases records
    · exact absurd rfl h
    · rfl
  rw [update_records, hne]
  exact ⟨rfl, by simpa using filterMap_updateStmtOpt table_name records⟩

/-- Witness for the amended C9: Scenario D — two records, two UPDATE
statements with the expected SET clauses and bound values, one commit. -/
theorem update_records_trace_witness :
    (update_records "my_table"
        [[("id", Value.vint 10), ("name", Value.vstr "UpdatedName10"),
          ("desc", Value.vstr "NewDesc10")],
         [("id", Value.vint 20), ("name", Value.vstr "UpdatedName20")]]).commits = 1 ∧
    (update_records "my_table"
        [[("id", Value.vint 10), ("name", Value.vstr "UpdatedName10"),
          ("desc", Value.vstr "NewDesc10")],
         [("id", Value.vint 20), ("name", Value.vstr "UpdatedName20")]]).stmts =
      [{ query := "UPDATE my_table SET name = %s, desc = %s WHERE id = %s"
         params := [Value.vstr "UpdatedName10", Value.vstr "NewDesc10", Value.vint 10] },
       { query := "UPDATE my_table SET name = %s WHERE id = %s"
         params := [Value.vstr "UpdatedName20", Value.vint 20] }] := by
  have h := update_records_trace "my_table"
    [[("id", Value.vint 10), ("name", Value.vstr "UpdatedName10"),
      ("desc", Value.vstr "NewDesc10")],
     [("id", Value.vint 20), ("name", Value.vstr "UpdatedName20")]] (by simp)
  exact ⟨h.1, by rw [h.2]; rfl⟩

/-- Claim C10: a record whose only present field is the identity field is
silently skipped by `update_records` — no statement for it, no error — while
the rest of the batch is still processed and the single commit still runs. -/
theorem update_skips_id_only_record (table_name : String)
    (pre post : List Record) (r : Record)
    (h1 : hasKey r "id" = true) (h2 : nonIdFields r = []) :
    (update_records table_name (pre ++ r :: post)).stmts =
      (pre ++ post).filterMap (updateStmtOpt table_name) ∧
    (update_records table_name (pre ++ r :: post)).commits = 1 := by
  have hne : (pre ++ r :: post).isEmpty = false := by
    cases pre <;> rfl
  have hskip : updateStmtOpt table_name r = none := by
    rw [updateStmtOpt, h2]
    simp
  rw [update_records, hne]
  refine ⟨?_, rfl⟩
  simp only [List.filterMap_append, List.filterMap_cons, hskip]
  rfl

/-- Witness for C10: a batch holding one real record and one id-only record
yields exactly the one statement for the real record, plus the commit. -/
theorem update_skips_id_only_record_witness :
    (update_records "my_table"
        ([[("id", Value.vint 1), ("name", Value.vstr "A")]] ++
          [("id", Value.vint 5)] :: [])).stmts =
      ([[("id", Value.vint 1), ("name", Value.vstr "A")]] ++ ([] : List Record)).filterMap
        (updateStmtOpt "my_table") ∧
    (update_records "my_table"
        ([[("id", Value.vint 1), ("name", Value.vstr "A")]] ++
          [("id", Value.vint 5)] :: [])).commits = 1 :=
  update_skips_id_only_record "my_table"
    [[("id", Value.vint 1), ("name", Value.vstr "A")]] []
    [("id", Value.vint 5)] rfl rfl

/-- An ordered column list, `{column_name: column_type}` as returned by
`_get_table_columns` (`main.py` lines 175-193). -/
abbrev ColumnList := List (String × String)

/-- One database's schema: table name to column list, the view that
`_get_tables` plus `_get_table_columns` give of a connection. -/
abbrev SchemaSnapshot := List (String × ColumnList)

/-- The table list `_get_tables` reports for a snapshot. -/
def tablesOf (s : SchemaSnapshot) : List String :=
  s.map Prod.fst

/-- The column dictionary `_get_table_columns` reports for one table. -/
def columnsOf (s : SchemaSnapshot) (table_name : String) : ColumnList :=
  (alookup s table_name).getD []

/-- `DatabaseSynchronizer._get_create_table_ddl` (`main.py` lines 144-152):
the connection argument is ignored and a hardcoded placeholder DDL is
returned for every table. -/
def create_table_ddl (table_name : String) : String :=
  "CREATE TABLE " ++ table_name ++ " (id SERIAL PRIMARY KEY, dummy_field VARCHAR(100));"

/-- The ALTER statements `_sync_table_structure` executes for one common
table (`main.py` lines 154-216): source columns in order, a missing column
becomes ADD COLUMN, a column with a different type tag becomes ALTER COLUMN
TYPE, both through `_map_type_to_postgres`. -/
def sync_table_ddl (table_name : String) (test_columns prod_columns : ColumnList) :
    List String :=
  test_columns.filterMap (fun c =>
    match alookup prod_columns c.1 with
    | none => some ("ALTER TABLE " ++ table_name ++ " ADD COLUMN " ++ c.1 ++ " " ++
        map_type_to_postgres c.2 ++ ";")
    | some prod_type =>
        if c.2 = prod_type then none
        else some ("ALTER TABLE " ++ table_name ++ " ALTER COLUMN " ++ c.1 ++ " TYPE " ++
          map_type_to_postgres c.2 ++ ";"))

/-- The DDL statements `sync_schema` executes (`main.py` lines 36-63): a
CREATE for every source table missing on the target, then the per-table
ALTERs for the tables present on both. -/
def sync_schema_ddl (test_schema prod_schema : SchemaSnapshot) : List String :=
  ((tablesOf test_schema).filter (fun t => decide (t ∉ tablesOf prod_schema))).map
    create_table_ddl ++
  ((tablesOf test_schema).filter (fun t => decide (t ∈ tablesOf prod_schema))).flatMap
    (fun t => sync_table_ddl t (columnsOf test_schema t) (columnsOf prod_schema t))

/-- The catalog view of a table created by the placeholder DDL: the code's
own comment at `main.py` line 191 spells this readback,
`{'id': 'integer', 'dummy_field': 'character varying'}`. -/
def dummy_table_columns : ColumnList :=
  [("id", "integer"), ("dummy_field", "character varying")]

/-- Snapshot-level effect of `_sync_table_structure` on one common table:
decisions are taken against the prod column dictionary fetched up front,
effects accumulate on the table (an added or retyped column reads back from
the catalog with the source's type tag). -/
def applyColumnChanges (test_columns prod_columns : ColumnList) : ColumnList :=
  test_columns.foldl (fun acc c =>
    match alookup prod_columns c.1 with
    | none => acc ++ [c]
    | some prod_type =>
        if c.2 = prod_type then acc
        else acc.map (fun p => if p.1 = c.1 then (c.1, c.2) else p)) prod_columns

/-- Snapshot-level effect of one `sync_schema` run on the target: existing
tables named in the source get their column changes, tables missing on the
target are created by the placeholder DDL and so read back with
`dummy_table_columns` (created tables are not column-synced in the same run,
since the prod table list was fetched before the creations). -/
def applySchemaChanges (test_schema prod_schema : SchemaSnapshot) : SchemaSnapshot :=
  prod_schema.map (fun e =>
    if decide (e.1 ∈ tablesOf test_schema) then
      (e.1, applyColumnChanges (columnsOf test_schema e.1) e.2)
    else e) ++
  (test_schema.filter (fun e => decide (e.1 ∉ tablesOf prod_schema))).map
    (fun e => (e.1, dummy_table_columns))

/-- Scenario A source snapshot: `orders` (with a `total` column) and `users`. -/
def scenarioASrc : SchemaSnapshot :=
  [("orders", [("id", "integer"), ("total", "integer")]),
   ("users", [("id", "integer"), ("name", "character varying")])]

/-- Scenario A target snapshot: only `users`, with the same columns. -/
def scenarioATgt : SchemaSnapshot :=
  [("users", [("id", "integer"), ("name", "character varying")])]

/-- Claim C4, evaluated at the failing input (Scenario A with a concrete
`orders` definition): the only statement emitted is the CREATE for `orders`
— no adds, no widens — but it is the hardcoded placeholder DDL, so the table
the target ends up with does not carry the source's column `total`; the
created definition differs from the full source definition, against both the
spec and the docstring of `_get_create_table_ddl`. -/
theorem create_table_ignores_source_cex :
    sync_schema_ddl scenarioASrc scenarioATgt = [create_table_ddl "orders"] ∧
    create_table_ddl "orders" =
      "CREATE TABLE orders (id SERIAL PRIMARY KEY, dummy_field VARCHAR(100));" ∧
    columnsOf (applySchemaChanges scenarioASrc scenarioATgt) "orders" =
      dummy_table_columns ∧
    columnsOf (applySchemaChanges scenarioASrc scenarioATgt) "orders" ≠
      columnsOf scenarioASrc "orders" := by
  exact ⟨rfl, rfl, rfl, by decide⟩

/-- Claim C5, evaluated at the failing input: create `orders` on an empty
target, then rerun the differ — the second run is not empty, it still wants
to add the source column `total` that the placeholder CREATE never installed. -/
theorem schema_sync_not_idempotent_cex :
    sync_schema_ddl [("orders", [("id", "integer"), ("total", "integer")])]
        (applySchemaChanges
          [("orders", [("id", "integer"), ("total", "integer")])] []) =
      ["ALTER TABLE orders ADD COLUMN total INTEGER;"] ∧
    sync_schema_ddl [("orders", [("id", "integer"), ("total", "integer")])]
        (applySchemaChanges
          [("orders", [("id", "integer"), ("total", "integer")])] []) ≠ [] := by
  exact ⟨rfl, by decide⟩

/-- Effect of `SET f = value` on one row: overwrite the field when the row
has it, append it otherwise (on the target table the column exists once the
schema is synced, so the row gains the field). -/
def setField (row : Record) (f : Field) (v : Value) : Record :=
  if hasKey row f then row.map (fun p => if p.1 = f then (f, v) else p)
  else row ++ [(f, v)]

/-- Effect of one emitted `UPDATE … SET … WHERE id = record_id` on one row:
rows whose identity column equals the bound identity get every non-identity
field of the update record written; other rows are untouched. -/
def applyUpdateRow (u : Record) (row : Record) : Record :=
  if rlookup row "id" = some (rget u "id") then
    (nonIdFields u).foldl (fun acc p => setField acc p.1 p.2) row
  else row

/-- Effect of one iteration of the `update_records` loop on one row: records
lacking `'id'` or with an empty SET clause are skipped (no statement), the
rest execute their UPDATE. -/
def stepRow (u : Record) (row : Record) : Record :=
  if hasKey u "id" && !(nonIdFields u).isEmpty then applyUpdateRow u row else row

/-- Effect of a whole update batch on the target rows, statement after
statement. -/
def applyUpdates (updates rows : List Record) : List Record :=
  updates.foldl (fun rows u => rows.map (stepRow u)) rows

/-- Effect of applying a computed reconciliation plan to the target rows:
`sync_reference_tables` (`main.py` lines 87-88) inserts first, then updates;
each INSERT appends a row holding exactly the record's fields. -/
def applyPlan (test_records prod_records : List Record) : List Record :=
  applyUpdates (calculate_updates test_records prod_records)
    (prod_records ++ calculate_inserts test_records prod_records)

/-- The first row of a row set whose identity column holds `k`. -/
def findById (rows : List Record) (k : Value) : Option Record :=
  rows.find? (fun row => decide (rlookup row "id" = some k))

/-- What one row becomes after the whole update batch has run. -/
def rowFate (updates : List Record) (row : Record) : Record :=
  updates.foldl (fun row u => stepRow u row) row

theorem alookup_append {β : Type} (l1 l2 : List (String × β)) (k : String) :
    alookup (l1 ++ l2) k = ((alookup l1 k).map some).getD (alookup l2 k) := by
  induction l1 with
  | nil => rfl
  | cons p rest ih =>
    obtain ⟨k', v'⟩ := p
    rw [List.cons_append, alookup, alookup]
    by_cases hk : k' = k
    · rw [if_pos hk, if_pos hk]
      rfl
    · rw [if_neg hk, if_neg hk]
      exact ih

theorem rlookup_map_replace (row : Record) (f : Field) (v : Value) :
    rlookup (row.map (fun p => if p.1 = f then (f, v) else p)) f =
      (rlookup row f).map (fun _ => v) := by
  induction row with
  | nil => rfl
  | cons p rest ih =>
    obtain ⟨k', w⟩ := p
    by_cases hk : k' = f
    · simp only [List.map_cons, rlookup, alookup, if_pos hk]
      simp
    · simp only [List.map_cons, rlookup, alookup, if_neg hk]
      exact ih

theorem rlookup_map_keep (row : Record) {f g : Field} (v : Value) (h : g ≠ f) :
    rlookup (row.map (fun p => if p.1 = f then (f, v) else p)) g = rlookup row g := by
  induction row with
  | nil => rfl
  | cons p rest ih =>
    obtain ⟨k', w⟩ := p
    by_cases hkf : k' = f
    · subst hkf
      simp only [List.map_cons, if_pos rfl]
      show alookup _ g = alookup _ g
      rw [alookup, alookup, if_neg (fun hh => h hh.symm), if_neg (fun hh => h hh.symm)]
      exact ih
    · simp only [List.map_cons, if_neg hkf]
      show alookup _ g = alookup _ g
      rw [alookup, alookup]
      by_cases hkg : k' = g
      · rw [if_pos hkg, if_pos hkg]
      · rw [if_neg hkg, if_neg hkg]
        exact ih

theorem rlookup_setField_self (row : Record) (f : Field) (v : Value) :
    rlookup (setField row f v) f = some v := by
  rw [setField]
  by_cases h : hasKey row f
  · rw [if_pos h, rlookup_map_replace]
    unfold hasKey at h
    cases hl : rlookup row f
    · rw [hl] at h
      simp at h
    · rfl
  · rw [if_neg h]
    have hnone : alookup row f = none := by
      unfold hasKey at h
      cases hl : rlookup row f
      · exact hl
      · rw [hl] at h
        simp at h
    show alookup (row ++ [(f, v)]) f = some v
    rw [alookup_append, hnone, alookup, if_pos rfl]
    rfl

theorem rlookup_setField_other (row : Record) {f g : Field} (v : Value)
    (h : g ≠ f) : rlookup (setField row f v) g = rlookup row g := by
  rw [setField]
  by_cases hk : hasKey row f
  · rw [if_pos hk]
    exact rlookup_map_keep row v h
  · rw [if_neg hk]
    show alookup (row ++ [(f, v)]) g = alookup row g
    rw [alookup_append]
    cases hl : alookup row g
    · rw [alookup, if_neg (fun hh => h hh.symm)]
      rfl
    · rfl

theorem rlookup_foldl_setField_not_mem (l : Record) (g : Field)
    (h : ∀ p ∈ l, p.1 ≠ g) :
    ∀ row : Record,
      rlookup (l.foldl (fun acc p => setField acc p.1 p.2) row) g = rlookup row g := by
  induction l with
  | nil => intro row; rfl
  | cons p rest ih =>
    intro row
    rw [List.foldl_cons]
    rw [ih (fun q hq => h q (List.mem_cons_of_mem _ hq)) _]
    exact rlookup_setField_other row p.2 (fun hh => h p (List.mem_cons_self _ _) hh.symm)

theorem rlookup_foldl_setField_mem (l : Record) (g : Field) (v : Value)
    (hnd : (l.map Prod.fst).Nodup) (h : alookup l g = some v) :
    ∀ row : Record,
      rlookup (l.foldl (fun acc p => setField acc p.1 p.2) row) g = some v := by
  induction l with
  | nil => cases h
  | cons p rest ih =>
    intro row
    rw [List.map_cons, List.nodup_cons] at hnd
    rw [alookup] at h
    rw [List.foldl_cons]
    by_cases hk : p.1 = g
    · rw [if_pos hk] at h
      have hv : p.2 = v := Option.some.inj h
      have hrest : ∀ q ∈ rest, q.1 ≠ g := by
        intro q hq hqg
        exact hnd.1 (by rw [hk]; exact hqg ▸ List.mem_map.mpr ⟨q, hq, rfl⟩)
      rw [rlookup_foldl_setField_not_mem rest g hrest _]
      rw [hk, hv] at *
      exact rlookup_setField_self row g v
    · rw [if_neg hk] at h
      exact ih hnd.2 h _

theorem alookup_nonIdFields (r : Record) {f : Field} (hf : f ≠ "id") :
    alookup (nonIdFields r) f = alookup r f := by
  induction r with
  | nil => rfl
  | cons p rest ih =>
    show alookup (List.filter _ (p :: rest)) f = _
    rw [List.filter_cons]
    by_cases hp : p.1 = "id"
    · rw [show (decide (p.1 ≠ "id")) = false by simp [hp]]
      simp only [Bool.false_eq_true, if_false]
      show alookup (nonIdFields rest) f = _
      rw [ih]
      conv_rhs => rw [alookup]
      rw [if_neg (fun hh : p.1 = f => hf (hh ▸ hp))]
    · rw [show (decide (p.1 ≠ "id")) = true by simp [hp]]
      simp only [if_true]
      rw [alookup, alookup]
      by_cases hpf : p.1 = f
      · rw [if_pos hpf, if_pos hpf]
      · rw [if_neg hpf, if_neg hpf]
        exact ih

theorem nonIdFields_keys_ne (u : Record) :
    ∀ p ∈ nonIdFields u, p.1 ≠ "id" := by
  intro p hp
  rw [nonIdFields] at hp
  exact of_decide_eq_true (List.mem_filter.mp hp).2

theorem rlookup_applyUpdateRow_id (u row : Record) :
    rlookup (applyUpdateRow u row) "id" = rlookup row "id" := by
  rw [applyUpdateRow]
  split
  · exact rlookup_foldl_setField_not_mem (nonIdFields u) "id" (nonIdFields_keys_ne u) row
  · rfl

theorem rlookup_stepRow_id (u row : Record) :
    rlookup (stepRow u row) "id" = rlookup row "id" := by
  rw [stepRow]
  split
  · exact rlookup_applyUpdateRow_id u row
  · rfl

theorem rowFate_id (updates : List Record) :
    ∀ row : Record, rlookup (rowFate updates row) "id" = rlookup row "id" := by
  induction updates with
  | nil => intro row; rfl
  | cons u rest ih =>
    intro row
    rw [rowFate, List.foldl_cons]
    exact (ih (stepRow u row)).trans (rlookup_stepRow_id u row)

theorem applyUpdates_eq_map (updates : List Record) :
    ∀ rows : List Record, applyUpdates updates rows = rows.map (rowFate updates) := by
  induction updates with
  | nil =>
    intro rows
    have hid : rowFate ([] : List Record) = id := funext fun _ => rfl
    show rows = rows.map (rowFate [])
    rw [hid, List.map_id]
  | cons u rest ih =>
    intro rows
    show applyUpdates rest (rows.map (stepRow u)) = _
    rw [ih, List.map_map]
    rfl

theorem findById_map (rows : List Record) (h : Record → Record) (k : Value)
    (hpres : ∀ row, rlookup (h row) "id" = rlookup row "id") :
    findById (rows.map h) k = (findById rows k).map h := by
  induction rows with
  | nil => rfl
  | cons r rest ih =>
    rw [List.map_cons, findById, findById]
    by_cases hp : rlookup r "id" = some k
    · have e1 : List.find? (fun row => decide (rlookup row "id" = some k))
          (h r :: List.map h rest) = some (h r) :=
        List.find?_cons_of_pos _ (decide_eq_true ((hpres r).trans hp))
      have e2 : List.find? (fun row => decide (rlookup row "id" = some k))
          (r :: rest) = some r :=
        List.find?_cons_of_pos _ (decide_eq_true hp)
      rw [e1, e2]
      rfl
    · have hne1 : ¬ (rlookup (h r) "id" = some k) :=
        fun hh => hp ((hpres r).symm.trans hh)
      have e1 : List.find? (fun row => decide (rlookup row "id" = some k))
          (h r :: List.map h rest) =
          List.find? (fun row => decide (rlookup row "id" = some k))
            (List.map h rest) :=
        List.find?_cons_of_neg _ (by simpa using hne1)
      have e2 : List.find? (fun row => decide (rlookup row "id" = some k))
          (r :: rest) =
          List.find? (fun row => decide (rlookup row "id" = some k)) rest :=
        List.find?_cons_of_neg _ (by simpa using hp)
      rw [e1, e2]
      exact ih

theorem find?_eq_some_of_unique {α : Type} (p : α → Bool) :
    ∀ (l : List α) (a : α), a ∈ l → p a = true → (∀ x ∈ l, p x = true → x = a) →
      l.find? p = some a := by
  intro l
  induction l with
  | nil => intro a ha _ _; cases ha
  | cons b rest ih =>
    intro a ha hpa huniq
    by_cases hb : p b = true
    · rw [List.find?_cons_of_pos _ hb, huniq b (List.mem_cons_self _ _) hb]
    · rw [List.find?_cons_of_neg _ (by simpa using hb)]
      refine ih a ?_ hpa (fun x hx hpx => huniq x (List.mem_cons_of_mem _ hx) hpx)
      rcases List.mem_cons.mp ha with h | h
      · exact absurd (h ▸ hpa) hb
      · exact h

theorem unique_by_id {l : List Record} (h : (prodIds l).Nodup) {x y : Record}
    {k : Value} (hx : x ∈ l) (hy : y ∈ l) (hxk : rlookup x "id" = some k)
    (hyk : rlookup y "id" = some k) : x = y := by
  obtain ⟨hxh, hxg⟩ := hasKey_and_rget_eq.mpr hxk
  obtain ⟨hyh, hyg⟩ := hasKey_and_rget_eq.mpr hyk
  rw [prodIds] at h
  exact List.inj_on_of_nodup_map h (List.mem_filter.mpr ⟨hx, hxh⟩)
    (List.mem_filter.mpr ⟨hy, hyh⟩) (by rw [hxg, hyg])

theorem rget_mem_prodIds {l : List Record} {u : Record} (hu : u ∈ l)
    (hk : hasKey u "id" = true) : rget u "id" ∈ prodIds l :=
  List.mem_map.mpr ⟨u, List.mem_filter.mpr ⟨hu, hk⟩, rfl⟩

theorem mem_calculate_updates {test_records prod_records : List Record}
    {u : Record} (hu : u ∈ calculate_updates test_records prod_records) :
    u ∈ test_records ∧ rget u "id" ∈ prodIds prod_records := by
  rw [calculate_updates, List.mem_filter] at hu
  refine ⟨hu.1, ?_⟩
  rcases hidx : prodIndex prod_records (rget u "id") with _ | t
  · rw [hidx] at hu
    simp at hu
  · exact prodIndex_isSome_iff.mp (by rw [hidx]; rfl)

theorem rowFate_eq_of_id (row : Record) (k : Value)
    (hrow : rlookup row "id" = some k) :
    ∀ updates : List Record,
      (∀ u ∈ updates, hasKey u "id" = true → rget u "id" ≠ k) →
      rowFate updates row = row := by
  intro updates
  induction updates with
  | nil => intro _; rfl
  | cons u rest ih =>
    intro h
    have hstep : stepRow u row = row := by
      rw [stepRow]
      by_cases hcond : (hasKey u "id" && !(nonIdFields u).isEmpty) = true
      · rw [if_pos hcond, applyUpdateRow, if_neg]
        intro heq
        rw [hrow] at heq
        rw [Bool.and_eq_true] at hcond
        exact h u (List.mem_cons_self _ _) hcond.1 (Option.some.inj heq).symm
      · rw [if_neg hcond]
    rw [rowFate, List.foldl_cons, hstep]
    exact ih (fun u' hu' => h u' (List.mem_cons_of_mem _ hu'))

/-- Target rows used to exercise preservation of a target-only record. -/
def c7ProdRecords : List Record :=
  [[("id", Value.vint 1), ("name", Value.vstr "OldName")],
   [("id", Value.vint 7), ("name", Value.vstr "KeepMe")]]

/-- Claim C7: the schema sync emits only CREATE TABLE, ADD COLUMN and ALTER
COLUMN TYPE statements (nothing names a table or column for removal), the
reconciliation path emits only INSERT and UPDATE statements (no delete path
exists), plan application never shrinks the target row set, and a target-only
row — identity on the target, absent from the source — survives plan
application untouched. -/
theorem additivity_no_deletion (test_schema prod_schema : SchemaSnapshot)
    (table_name : String) (test_records prod_records : List Record) :
    (∀ stmt ∈ sync_schema_ddl test_schema prod_schema,
        (∃ rest, stmt = "CREATE TABLE " ++ rest) ∨
        (∃ t c ty, stmt = "ALTER TABLE " ++ t ++ " ADD COLUMN " ++ c ++ " " ++ ty ++ ";") ∨
        (∃ t c ty, stmt = "ALTER TABLE " ++ t ++ " ALTER COLUMN " ++ c ++ " TYPE " ++ ty ++ ";")) ∧
    (∀ s ∈ (insert_records table_name (calculate_inserts test_records prod_records)).stmts,
        ∃ rest, s.query = "INSERT INTO " ++ rest) ∧
    (∀ s ∈ (update_records table_name (calculate_updates test_records prod_records)).stmts,
        ∃ rest, s.query = "UPDATE " ++ rest) ∧
    (applyPlan test_records prod_records).length =
      prod_records.length + (calculate_inserts test_records prod_records).length ∧
    (∀ p ∈ prod_records, ∀ k, rlookup p "id" = some k →
      k ∉ prodIds test_records → p ∈ applyPlan test_records prod_records) := by
  refine ⟨?_, ?_, ?_, ?_, ?_⟩
  · intro stmt hmem
    rw [sync_schema_ddl] at hmem
    rcases List.mem_append.mp hmem with hc | ha
    · obtain ⟨t, _, ht⟩ := List.mem_map.mp hc
      left
      exact ⟨t ++ " (id SERIAL PRIMARY KEY, dummy_field VARCHAR(100));",
        by rw [← ht, create_table_ddl, String.append_assoc]⟩
    · obtain ⟨t, _, hst⟩ := List.mem_flatMap.mp ha
      rw [sync_table_ddl] at hst
      obtain ⟨c, _, hc⟩ := List.mem_filterMap.mp hst
      rcases hal : alookup (columnsOf prod_schema t) c.1 with _ | prod_type
      · rw [hal] at hc
        right; left
        exact ⟨t, c.1, map_type_to_postgres c.2, (Option.some.inj hc).symm⟩
      · rw [hal] at hc
        have hc' : (if c.2 = prod_type then (none : Option String)
            else some ("ALTER TABLE " ++ t ++ " ALTER COLUMN " ++ c.1 ++ " TYPE " ++
              map_type_to_postgres c.2 ++ ";")) = some stmt := hc
        by_cases heq : c.2 = prod_type
        · rw [if_pos heq] at hc'
          cases hc'
        · rw [if_neg heq] at hc'
          right; right
          exact ⟨t, c.1, map_type_to_postgres c.2, (Option.some.inj hc').symm⟩
  · intro s hs
    rw [insert_records] at hs
    by_cases hemp : (calculate_inserts test_records prod_records).isEmpty = true
    · rw [if_pos hemp] at hs
      simp at hs
    · rw [if_neg hemp] at hs
      obtain ⟨r, _, hr⟩ := List.mem_map.mp hs
      refine ⟨table_name ++ (" (" ++ (String.intercalate ", " (r.map Prod.fst) ++
        (") VALUES (" ++ (String.intercalate ", " (r.map (fun _ => "%s")) ++ ")")))), ?_⟩
      rw [← hr]
      show (insertStmt table_name r).query = _
      rw [insertStmt]
      simp only [String.append_assoc]
  · intro s hs
    rw [update_records] at hs
    by_cases hemp : (calculate_updates test_records prod_records).isEmpty = true
    · rw [if_pos hemp] at hs
      simp at hs
    · rw [if_neg hemp] at hs
      obtain ⟨r, _, hr⟩ := List.mem_filterMap.mp hs
      rw [updateStmtOpt] at hr
      by_cases hcond : (hasKey r "id" && !(nonIdFields r).isEmpty) = true
      · rw [if_pos hcond] at hr
        refine ⟨table_name ++ (" SET " ++ (String.intercalate ", "
          ((nonIdFields r).map (fun p => p.1 ++ " = %s")) ++ " WHERE id = %s")), ?_⟩
        rw [← Option.some.inj hr]
        show (mkUpdateStmt table_name r).query = _
        rw [mkUpdateStmt]
        simp only [String.append_assoc]
      · rw [if_neg hcond] at hr
        cases hr
  · rw [applyPlan, applyUpdates_eq_map, List.length_map, List.length_append]
  · intro p hp k hk hkn
    rw [applyPlan, applyUpdates_eq_map]
    have hfate : rowFate (calculate_updates test_records prod_records) p = p := by
      apply rowFate_eq_of_id p k hk
      intro u hu hukey hueq
      obtain ⟨hutest, _⟩ := mem_calculate_updates hu
      exact hkn (hueq ▸ rget_mem_prodIds hutest hukey)
    rw [← hfate]
    exact List.mem_map_of_mem _ (List.mem_append_left _ hp)

/-- Witness for C7: with Scenario B source rows against a target that also
holds the target-only row id 7, that row survives plan application. -/
theorem additivity_no_deletion_witness :
    [("id", Value.vint 7), ("name", Value.vstr "KeepMe")] ∈
      applyPlan scenarioBTest c7ProdRecords :=
  (additivity_no_deletion scenarioASrc scenarioATgt "some_ref_table"
      scenarioBTest c7ProdRecords).2.2.2.2
    [("id", Value.vint 7), ("name", Value.vstr "KeepMe")]
    (by simp [c7ProdRecords]) (Value.vint 7) rfl (by decide)

theorem rowFate_post (k : Value) (r : Record) (f : Field) (v : Value)
    (hrkeys : (r.map Prod.fst).Nodup)
    (hrk : rlookup r "id" = some k)
    (hfne : f ≠ "id")
    (hfv : rlookup r f = some v) :
    ∀ (us : List Record) (row : Record),
      rlookup row "id" = some k →
      (∀ u ∈ us, hasKey u "id" = true → rget u "id" = k → u = r) →
      (rlookup row f = some v ∨ r ∈ us) →
      rlookup (rowFate us row) f = some v := by
  intro us
  induction us with
  | nil =>
    intro row _ _ hstart
    rcases hstart with hs | hs
    · exact hs
    · cases hs
  | cons u rest ih =>
    intro row hrow hall hstart
    by_cases htouch : hasKey u "id" = true ∧ rget u "id" = k
    · have huer : u = r := hall u (List.mem_cons_self _ _) htouch.1 htouch.2
      have hfvu : rlookup u f = some v := by rw [huer]; exact hfv
      have hndu : (u.map Prod.fst).Nodup := by rw [huer]; exact hrkeys
      have hmemf : (f, v) ∈ nonIdFields u := by
        rw [nonIdFields]
        refine List.mem_filter.mpr ⟨alookup_mem hfvu, ?_⟩
        simp [hfne]
      have hne : (nonIdFields u).isEmpty = false := by
        cases hnil : nonIdFields u
        · rw [hnil] at hmemf
          cases hmemf
        · rfl
      have hcond : (hasKey u "id" && !(nonIdFields u).isEmpty) = true := by
        rw [htouch.1, hne]
        rfl
      have hstep : stepRow u row =
          (nonIdFields u).foldl (fun acc p => setField acc p.1 p.2) row := by
        rw [stepRow, if_pos hcond, applyUpdateRow,
          if_pos (show rlookup row "id" = some (rget u "id") by rw [hrow, htouch.2])]
      have hndsub : ((nonIdFields u).map Prod.fst).Nodup :=
        List.Nodup.sublist (List.Sublist.map Prod.fst (List.filter_sublist u)) hndu
      have hrowf :
          rlookup ((nonIdFields u).foldl (fun acc p => setField acc p.1 p.2) row) f =
            some v :=
        rlookup_foldl_setField_mem (nonIdFields u) f v hndsub
          (by rw [alookup_nonIdFields u hfne]; exact hfvu) row
      have hrow' :
          rlookup ((nonIdFields u).foldl (fun acc p => setField acc p.1 p.2) row) "id" =
            some k := by
        rw [rlookup_foldl_setField_not_mem (nonIdFields u) "id" (nonIdFields_keys_ne u) row]
        exact hrow
      rw [rowFate, List.foldl_cons, hstep]
      exact ih _ hrow' (fun u' hu' => hall u' (List.mem_cons_of_mem _ hu'))
        (Or.inl hrowf)
    · have hstep : stepRow u row = row := by
        rw [stepRow]
        by_cases hcond : (hasKey u "id" && !(nonIdFields u).isEmpty) = true
        · rw [if_pos hcond, applyUpdateRow, if_neg]
          intro heq
          rw [hrow] at heq
          rw [Bool.and_eq_true] at hcond
          exact htouch ⟨hcond.1, (Option.some.inj heq).symm⟩
        · rw [if_neg hcond]
      rw [rowFate, List.foldl_cons, hstep]
      refine ih row hrow (fun u' hu' => hall u' (List.mem_cons_of_mem _ hu')) ?_
      rcases hstart with hs | hs
      · exact Or.inl hs
      · rcases List.mem_cons.mp hs with hre | hre
        · exfalso
          obtain ⟨hrh, hrg⟩ := hasKey_and_rget_eq.mpr hrk
          exact htouch ⟨hre ▸ hrh, hre ▸ hrg⟩
        · exact Or.inr hre

/-- Counterexample to claim C6 as stated: the source row carries the field
`extra`, its identity 1 matches the target row, no common non-identity field
differs, so the plan is empty — after application the target row with
identity 1 still lacks `extra`, so it does not agree with the source record
on every field the source record carries. -/
theorem convergence_cex :
    hasKey [("id", Value.vint 1), ("extra", Value.vstr "X")] "extra" = true ∧
    findById
        (applyPlan [[("id", Value.vint 1), ("extra", Value.vstr "X")]]
          [[("id", Value.vint 1)]]) (Value.vint 1) =
      some [("id", Value.vint 1)] ∧
    rlookup [("id", Value.vint 1)] "extra" ≠
      rlookup [("id", Value.vint 1), ("extra", Value.vstr "X")] "extra" := by
  exact ⟨rfl, rfl, by decide⟩

/-- Claim C6 as amended: under the RecordSet invariant (identity values
unique within each record set, keys unique within the record), a source
record `r` with identity `k` converges on every field `f` it carries that is
either backed by a fresh insert (no target row has identity `k`) or present
on the matched target record; a source field absent from the matched target
record is the one situation left out, per the counterexample. -/
theorem convergence_amended (test_records prod_records : List Record)
    (r : Record) (k : Value) (f : Field)
    (hsrc : (prodIds test_records).Nodup)
    (htgt : (prodIds prod_records).Nodup)
    (hrkeys : (r.map Prod.fst).Nodup)
    (hr : r ∈ test_records)
    (hid : rlookup r "id" = some k)
    (hf : hasKey r f = true)
    (hcase : prodIndex prod_records k = none ∨
      ∃ t, prodIndex prod_records k = some t ∧ hasKey t f = true) :
    ∃ row, findById (applyPlan test_records prod_records) k = some row ∧
      rlookup row f = rlookup r f := by
  have hrget : rget r "id" = k := (hasKey_and_rget_eq.mpr hid).2
  rcases hcase with hnone | ⟨t, hsome, htf⟩
  · have hkn : k ∉ prodIds prod_records := prodIndex_eq_none_iff.mp hnone
    have hrins : r ∈ calculate_inserts test_records prod_records := by
      rw [calculate_inserts, List.mem_filter]
      exact ⟨hr, decide_eq_true (by rw [hrget]; exact hkn)⟩
    have hfind :
        findById (prod_records ++ calculate_inserts test_records prod_records) k =
          some r := by
      rw [findById, List.find?_append]
      have h1 : prod_records.find? (fun row => decide (rlookup row "id" = some k)) =
          none := by
        rw [List.find?_eq_none]
        intro x hx hpx
        obtain ⟨hxkey, hxg⟩ := hasKey_and_rget_eq.mpr (of_decide_eq_true hpx)
        exact hkn (hxg ▸ rget_mem_prodIds hx hxkey)
      have h2 : (calculate_inserts test_records prod_records).find?
          (fun row => decide (rlookup row "id" = some k)) = some r := by
        apply find?_eq_some_of_unique _ _ r hrins (decide_eq_true hid)
        intro x hx hpx
        have hxt : x ∈ test_records := by
          rw [calculate_inserts] at hx
          exact (List.mem_filter.mp hx).1
        exact unique_by_id hsrc hxt hr (of_decide_eq_true hpx) hid
      rw [h1, h2]
      rfl
    refine ⟨rowFate (calculate_updates test_records prod_records) r, ?_, ?_⟩
    · rw [applyPlan, applyUpdates_eq_map, findById_map _ _ _ (rowFate_id _), hfind]
      rfl
    · rw [rowFate_eq_of_id r k hid (calculate_updates test_records prod_records)
        (fun u hu _ hueq => absurd (hueq ▸ (mem_calculate_updates hu).2) hkn)]
  · obtain ⟨htp, hts⟩ := prodIndex_eq_some hsome
    have hfind :
        findById (prod_records ++ calculate_inserts test_records prod_records) k =
          some t := by
      rw [findById, List.find?_append]
      have h1 : prod_records.find? (fun row => decide (rlookup row "id" = some k)) =
          some t :=
        find?_eq_some_of_unique _ _ t htp (decide_eq_true hts)
          (fun x hx hpx => unique_by_id htgt hx htp (of_decide_eq_true hpx) hts)
      rw [h1]
      rfl
    refine ⟨rowFate (calculate_updates test_records prod_records) t, ?_, ?_⟩
    · rw [applyPlan, applyUpdates_eq_map, findById_map _ _ _ (rowFate_id _), hfind]
      rfl
    · by_cases hfid : f = "id"
      · subst hfid
        rw [rowFate_id _ t, hts, hid]
      · obtain ⟨v, hv⟩ : ∃ v, rlookup r f = some v := by
          unfold hasKey at hf
          cases hrf : rlookup r f
          · rw [hrf] at hf
            simp at hf
          · exact ⟨_, rfl⟩
        rw [hv]
        have huniq_test : ∀ u ∈ calculate_updates test_records prod_records,
            hasKey u "id" = true → rget u "id" = k → u = r := by
          intro u hu hukey hueq
          exact unique_by_id hsrc (mem_calculate_updates hu).1 hr
            (hasKey_and_rget_eq.mp ⟨hukey, hueq⟩) hid
        have hstart : rlookup t f = some v ∨
            r ∈ calculate_updates test_records prod_records := by
          by_cases hdiff : recordDiffers r t = true
          · right
            rw [calculate_updates, List.mem_filter]
            refine ⟨hr, ?_⟩
            rw [hrget, hsome]
            exact hdiff
          · left
            have hfalse : recordDiffers r t = false := by
              cases hb : recordDiffers r t
              · rfl
              · exact absurd hb hdiff
            rw [recordDiffers] at hfalse
            have hone := (List.any_eq_false.mp hfalse) (f, v) (alookup_mem hv)
            have hval : rget t f = v := by
              by_contra hne
              exact hone (by simp [hfid, htf, hne])
            exact hasKey_and_rget_eq.mp ⟨htf, hval⟩
        exact rowFate_post k r f v hrkeys hid hfid hv
          (calculate_updates test_records prod_records) t hts huniq_test hstart

/-- Witness for the amended C6 on Scenario B: the source row with identity 1
converges on `name` — after plan application the target row with identity 1
holds `TestName1`. -/
theorem convergence_amended_witness :
    ∃ row, findById (applyPlan scenarioBTest scenarioBProd) (Value.vint 1) =
        some row ∧
      rlookup row "name" =
        rlookup [("id", Value.vint 1), ("name", Value.vstr "TestName1")] "name" :=
  convergence_amended scenarioBTest scenarioBProd
    [("id", Value.vint 1), ("name", Value.vstr "TestName1")] (Value.vint 1) "name"
    (by decide) (by decide) (by decide) (by simp [scenarioBTest]) rfl rfl
    (Or.inr ⟨[("id", Value.vint 1), ("name", Value.vstr "OldName")], rfl, rfl⟩)

end ProdDbChanger
